import Mathlib

/-!
Verification of `src/setup.c` (liburing ring setup/teardown core).

The C code is shallowly embedded: machine integers are `Nat` with explicit
`% 2^32` / `% 2^64` where the C arithmetic can wrap, external effects
(`mmap`, `munmap`, `close`, `io_uring_setup`, `io_uring_register_probe`,
`sysconf`, `malloc`, shared-memory reads) are an oracle environment, and
each stateful operation returns its result together with the updated
structures and the list of external calls it performed.
-/

namespace LiburingSetup

/-! ### ABI constants

Modelled from the spec: the kernel ABI headers (`liburing/io_uring.h`,
`liburing.h`) are not part of `src/`; the spec describes the feature bitset
("single combined mapping supported", "kernel uses native worker accounting"),
the setup options (clamping, explicit completion sizing), the three
kernel-defined region identifiers, and fixed-size entry/completion records.
The numeric values below are the kernel ABI values; the development only
depends on the bits being fixed and distinct. -/

def IORING_FEAT_SINGLE_MMAP : Nat := 1

def IORING_FEAT_NATIVE_WORKERS : Nat := 512

def IORING_SETUP_CQSIZE : Nat := 8

def IORING_SETUP_CLAMP : Nat := 16

def IORING_OFF_SQ_RING : Nat := 0

def IORING_OFF_CQ_RING : Nat := 0x8000000

def IORING_OFF_SQES : Nat := 0x10000000

/-- Modelled from the spec: `sizeof(unsigned)`, the index-slot size. -/
def sizeof_unsigned : Nat := 4

/-- Modelled from the spec: `sizeof(struct io_uring_cqe)`, the completion-record size. -/
def sizeof_io_uring_cqe : Nat := 16

/-- Modelled from the spec: `sizeof(struct io_uring_sqe)`, the entry-record size. -/
def sizeof_io_uring_sqe : Nat := 64

/-- `EINVAL`, the OS invalid-argument error number. -/
def EINVAL : Nat := 22

/-- `ENOMEM`, used only in concrete witnesses for failing external calls. -/
def ENOMEM : Nat := 12

/-- `#define KRING_SIZE 320` from `setup.c`. -/
def KRING_SIZE : Nat := 320

/-- `#define KERN_MAX_ENTRIES 32768` from `setup.c`. -/
def KERN_MAX_ENTRIES : Nat := 32768

/-- `#define KERN_MAX_CQ_ENTRIES (2 * KERN_MAX_ENTRIES)` from `setup.c`. -/
def KERN_MAX_CQ_ENTRIES : Nat := 2 * KERN_MAX_ENTRIES

/-! ### `__fls` (setup.c lines 221-248)

The C routine starts from `r = 32` and conditionally shifts `x` left by
16, 8, 4, 2, 1, each time testing a contiguous high mask and decrementing
`r` by the shift amount.  `flsStep k` is one such conditional step: its
mask `(2^k - 1) <<< (32 - k)` is `0xffff0000` for `k = 16`, `0xff000000`
for `k = 8`, `0xf0000000` for `k = 4`, `0xc0000000` for `k = 2` and
`0x80000000` for `k = 1`.  The `% 2^32` models the wrap of the 32-bit
left shift. -/

def flsStep (k : Nat) (p : Nat × Nat) : Nat × Nat :=
  if p.1 &&& ((2 ^ k - 1) <<< (32 - k)) = 0 then ((p.1 <<< k) % 2 ^ 32, p.2 - k) else p

def flsAux : List Nat → Nat × Nat → Nat × Nat
  | [], p => p
  | k :: ks, p => flsAux ks (flsStep k p)

/-- `static int __fls(int x)` from `setup.c`: 1-based position of the most
significant set bit of a 32-bit value, `0` for input `0`. -/
def __fls (x : Nat) : Nat :=
  if x = 0 then 0 else (flsAux [16, 8, 4, 2, 1] (x, 32)).2

/-- The shift schedule of `__fls`: each shift amount exceeds the sum of the
remaining ones by exactly one, so the steps binary-search the leading bit. -/
inductive Tele : List Nat → Prop
  | nil : Tele []
  | cons (k : Nat) (t : List Nat) (ht : Tele t) (hk : k = t.sum + 1) : Tele (k :: t)

/-! ### `roundup_pow2`, `npages`, `rings_size` (setup.c lines 250-276) -/

/-- `static unsigned roundup_pow2(unsigned depth)`: `1UL << __fls(depth - 1)`.
The parameter is a 32-bit `unsigned`, so the argument is reduced mod `2^32`
and `depth - 1` wraps mod `2^32`; the result is a 64-bit `unsigned long`. -/
def roundup_pow2 (depth : Nat) : Nat :=
  1 <<< __fls ((depth % 2 ^ 32 + (2 ^ 32 - 1)) % 2 ^ 32)

/-- `static size_t npages(size_t size, unsigned page_size)`: decrements `size`
(wrapping as a 64-bit `size_t`), divides by `page_size`, and feeds the result
to `__fls`, whose `int` parameter truncates to 32 bits. -/
def npages (size page_size : Nat) : Nat :=
  __fls ((size + (2 ^ 64 - 1)) % 2 ^ 64 / page_size % 2 ^ 32)

/-- `static size_t rings_size(unsigned entries, unsigned cq_entries, unsigned
page_size)` from `setup.c`: completion-region bytes (`KRING_SIZE` plus
`cq_entries` completion records, rounded up to 64 bytes with `& ~63UL`),
converted to a page count via `1 << npages`, plus the entry-array bytes
converted the same way, times `page_size` (a 64-bit `size_t` product). -/
def rings_size (entries cq_entries page_size : Nat) : Nat :=
  let cq_size := KRING_SIZE + cq_entries * sizeof_io_uring_cqe
  let cq_size := (cq_size + 63) &&& ((2 ^ 58 - 1) <<< 6)
  let pages := 1 <<< npages cq_size page_size
  let sq_size := sizeof_io_uring_sqe * entries
  let pages := pages + 1 <<< npages sq_size page_size
  pages * page_size % 2 ^ 64

/-- The claim's formula for the byte total, written from the spec's words:
completion-region bytes (header constant `320` plus completion depth times
the completion-record size, rounded up to a 64-byte boundary) converted to
whole pages, plus submission entry-array bytes (submission depth times the
entry-record size) converted to whole pages, the two page counts summed and
multiplied by the page size.  Per the spec's `pageCountLog2`, "converted to
whole pages" means the page count rounded up (`⌈bytes / pageSize⌉`) and then
rounded up to a power of two (`2 ^ Nat.clog 2 _`, the smallest power of two
at least the rounded page count). -/
def rings_size_spec (entries cq_entries page_size : Nat) : Nat :=
  let cqBytes := (320 + cq_entries * 16 + 63) / 64 * 64
  let cqPages := 2 ^ Nat.clog 2 ((cqBytes + page_size - 1) / page_size)
  let sqBytes := entries * 64
  let sqPages := 2 ^ Nat.clog 2 ((sqBytes + page_size - 1) / page_size)
  (cqPages + sqPages) * page_size

/-! ### Data model

Modelled from the spec: the layout/feature description (`struct
io_uring_params` with its two offset tables) and the ring structures
(`struct io_uring_sq`, `struct io_uring_cq`, `struct io_uring`) are declared
in the `liburing.h` / `liburing/io_uring.h` headers, which are not under
`src/`; their field lists follow the spec's data-model section and the
fields `setup.c` reads and writes.  Addresses and kernel pointers are `Nat`
(`0` plays the role of the null pointer); descriptors are `Int`. -/

structure io_sqring_offsets where
  head : Nat
  tail : Nat
  ring_mask : Nat
  ring_entries : Nat
  flags : Nat
  dropped : Nat
  array : Nat
  deriving DecidableEq

structure io_cqring_offsets where
  head : Nat
  tail : Nat
  ring_mask : Nat
  ring_entries : Nat
  overflow : Nat
  cqes : Nat
  flags : Nat
  deriving DecidableEq

structure io_uring_params where
  sq_entries : Nat
  cq_entries : Nat
  flags : Nat
  features : Nat
  sq_off : io_sqring_offsets
  cq_off : io_cqring_offsets
  deriving DecidableEq

structure io_uring_sq where
  khead : Nat
  ktail : Nat
  kring_mask : Nat
  kring_entries : Nat
  kflags : Nat
  kdropped : Nat
  array : Nat
  sqes : Nat
  ring_sz : Nat
  ring_ptr : Nat
  deriving DecidableEq

structure io_uring_cq where
  khead : Nat
  ktail : Nat
  kring_mask : Nat
  kring_entries : Nat
  koverflow : Nat
  cqes : Nat
  kflags : Nat
  ring_sz : Nat
  ring_ptr : Nat
  deriving DecidableEq

structure io_uring where
  sq : io_uring_sq
  cq : io_uring_cq
  flags : Nat
  ring_fd : Int
  features : Nat
  deriving DecidableEq

def zeroSqOff : io_sqring_offsets := ⟨0, 0, 0, 0, 0, 0, 0⟩

def zeroCqOff : io_cqring_offsets := ⟨0, 0, 0, 0, 0, 0, 0⟩

/-- `struct io_uring_params lp = { };` — the zero-initialised params. -/
def zeroParams : io_uring_params := ⟨0, 0, 0, 0, zeroSqOff, zeroCqOff⟩

def zeroSq : io_uring_sq := ⟨0, 0, 0, 0, 0, 0, 0, 0, 0, 0⟩

def zeroCq : io_uring_cq := ⟨0, 0, 0, 0, 0, 0, 0, 0, 0⟩

/-- `memset(ring, 0, sizeof(*ring))` — the fully zeroed ring. -/
def zeroRing : io_uring := ⟨zeroSq, zeroCq, 0, 0, 0⟩

/-! ### External-call oracle and event traces

The OS and kernel collaborators (`mmap`, `io_uring_setup`,
`io_uring_register_probe`, `sysconf`, `malloc`, reads of the shared mapped
memory) are modelled as an oracle environment; each embedded operation also
returns, in program order, the list of resource-affecting external calls it
made (`mmap`, `munmap`, `close`). -/

inductive Ev where
  | mmapCall (addr len off : Nat)
  | munmapCall (addr len : Nat)
  | closeCall (fd : Int)
  deriving DecidableEq

structure Env where
  /-- `mmap(0, len, ..., fd, offset)`: `.ok addr` on success, `.error errno`
  for `MAP_FAILED`.  Keyed by length and offset; the three ring regions use
  three distinct offsets. -/
  mmap : Nat → Nat → Except Int Nat
  /-- `__sys_io_uring_setup(entries, p)`: `.ok (fd, resolvedParams)` models
  the kernel accepting the request and writing the resolved layout/feature
  description back through `p`; `.error errno` models a failing setup call. -/
  setup : Nat → io_uring_params → Except Int (Int × io_uring_params)
  /-- A read of a 32-bit field of the shared mapped memory (used for
  `*sq->kring_entries` during teardown). -/
  mem : Nat → Nat
  /-- `sysconf(_SC_PAGESIZE)`: negative when the page size cannot be
  determined. -/
  page_size : Int
  /-- `malloc` result for the probe buffer; `0` is `NULL`. -/
  probe_malloc : Nat
  /-- `io_uring_register_probe` return value. -/
  register_probe : Int

/-- `static void io_uring_unmap_rings(struct io_uring_sq *sq, struct
io_uring_cq *cq)` (setup.c lines 19-24): unmap the submission ring region,
then the completion ring region only if its pointer is non-null and differs
from the submission one. -/
def io_uring_unmap_rings (sq : io_uring_sq) (cq : io_uring_cq) : List Ev :=
  Ev.munmapCall sq.ring_ptr sq.ring_sz ::
    (if cq.ring_ptr ≠ 0 ∧ cq.ring_ptr ≠ sq.ring_ptr then
      [Ev.munmapCall cq.ring_ptr cq.ring_sz]
    else [])

structure MmapOut where
  ret : Int
  sq : io_uring_sq
  cq : io_uring_cq
  evs : List Ev
  deriving DecidableEq

/-- Lines 57-84 of `io_uring_mmap`: resolve the submission-side pointers,
map the entry-record (sqes) array (unwinding the ring mappings on failure,
the `err:` label), then resolve the completion-side pointers. -/
def io_uring_mmapSqes (env : Env) (p : io_uring_params)
    (sq : io_uring_sq) (cq : io_uring_cq) (evs : List Ev) : MmapOut :=
  let sq := { sq with
    khead := sq.ring_ptr + p.sq_off.head
    ktail := sq.ring_ptr + p.sq_off.tail
    kring_mask := sq.ring_ptr + p.sq_off.ring_mask
    kring_entries := sq.ring_ptr + p.sq_off.ring_entries
    kflags := sq.ring_ptr + p.sq_off.flags
    kdropped := sq.ring_ptr + p.sq_off.dropped
    array := sq.ring_ptr + p.sq_off.array }
  let size := p.sq_entries * sizeof_io_uring_sqe
  match env.mmap size IORING_OFF_SQES with
  | .error e => { ret := -e, sq := sq, cq := cq, evs := evs ++ io_uring_unmap_rings sq cq }
  | .ok s =>
    let sq := { sq with sqes := s }
    let evs := evs ++ [Ev.mmapCall s size IORING_OFF_SQES]
    let cq := { cq with
      khead := cq.ring_ptr + p.cq_off.head
      ktail := cq.ring_ptr + p.cq_off.tail
      kring_mask := cq.ring_ptr + p.cq_off.ring_mask
      kring_entries := cq.ring_ptr + p.cq_off.ring_entries
      koverflow := cq.ring_ptr + p.cq_off.overflow
      cqes := cq.ring_ptr + p.cq_off.cqes
      kflags := if p.cq_off.flags ≠ 0 then cq.ring_ptr + p.cq_off.flags else cq.kflags }
    { ret := 0, sq := sq, cq := cq, evs := evs }

/-- `static int io_uring_mmap(int fd, struct io_uring_params *p, struct
io_uring_sq *sq, struct io_uring_cq *cq)` (setup.c lines 26-85). -/
def io_uring_mmap (env : Env) (p : io_uring_params)
    (sq : io_uring_sq) (cq : io_uring_cq) : MmapOut :=
  let sq := { sq with ring_sz := p.sq_off.array + p.sq_entries * sizeof_unsigned }
  let cq := { cq with ring_sz := p.cq_off.cqes + p.cq_entries * sizeof_io_uring_cqe }
  let sq :=
    if p.features &&& IORING_FEAT_SINGLE_MMAP ≠ 0 then
      if cq.ring_sz > sq.ring_sz then { sq with ring_sz := cq.ring_sz } else sq
    else sq
  let cq :=
    if p.features &&& IORING_FEAT_SINGLE_MMAP ≠ 0 then { cq with ring_sz := sq.ring_sz }
    else cq
  match env.mmap sq.ring_sz IORING_OFF_SQ_RING with
  | .error e => { ret := -e, sq := sq, cq := cq, evs := [] }
  | .ok a =>
    let sq := { sq with ring_ptr := a }
    let evs := [Ev.mmapCall a sq.ring_sz IORING_OFF_SQ_RING]
    if p.features &&& IORING_FEAT_SINGLE_MMAP ≠ 0 then
      io_uring_mmapSqes env p sq { cq with ring_ptr := sq.ring_ptr } evs
    else
      match env.mmap cq.ring_sz IORING_OFF_CQ_RING with
      | .error e =>
        let cq := { cq with ring_ptr := 0 }
        { ret := -e, sq := sq, cq := cq, evs := evs ++ io_uring_unmap_rings sq cq }
      | .ok b =>
        let cq := { cq with ring_ptr := b }
        io_uring_mmapSqes env p sq cq (evs ++ [Ev.mmapCall b cq.ring_sz IORING_OFF_CQ_RING])

/-- The multiset of still-mapped `(address, length)` regions after a trace. -/
def liveAfter (acc : List (Nat × Nat)) : List Ev → List (Nat × Nat)
  | [] => acc
  | Ev.mmapCall a l _ :: t => liveAfter (acc ++ [(a, l)]) t
  | Ev.munmapCall a l :: t => liveAfter (acc.erase (a, l)) t
  | Ev.closeCall _ :: t => liveAfter acc t

def liveAddrs (evs : List Ev) : List (Nat × Nat) := liveAfter [] evs

/-! ### Ring handle lifecycle (setup.c lines 93-179) -/

structure QmOut where
  ret : Int
  ring : io_uring
  evs : List Ev
  deriving DecidableEq

/-- `int io_uring_queue_mmap(int fd, struct io_uring_params *p, struct
io_uring *ring)` (setup.c lines 93-104): zeroes the whole ring structure
(`memset`, modelled by starting from `zeroRing`, so the caller's previous
ring contents are irrelevant), maps the rings, and writes `flags` and
`ring_fd` only when mapping succeeded. -/
def io_uring_queue_mmap (env : Env) (fd : Int) (p : io_uring_params) : QmOut :=
  let ring := zeroRing
  let o := io_uring_mmap env p ring.sq ring.cq
  let ring := { ring with sq := o.sq, cq := o.cq }
  if o.ret = 0 then
    { ret := 0, ring := { ring with flags := p.flags, ring_fd := fd }, evs := o.evs }
  else
    { ret := o.ret, ring := ring, evs := o.evs }

structure InitOut where
  ret : Int
  ring : io_uring
  params : io_uring_params
  evs : List Ev
  deriving DecidableEq

/-- `int io_uring_queue_init_params(unsigned entries, struct io_uring *ring,
struct io_uring_params *p)` (setup.c lines 138-155).  `ring0` is the
caller's (possibly uninitialised) ring storage, returned untouched when the
setup call itself fails; `params` is the kernel-resolved `*p`. -/
def io_uring_queue_init_params (env : Env) (entries : Nat) (ring0 : io_uring)
    (p : io_uring_params) : InitOut :=
  match env.setup entries p with
  | .error e => { ret := -e, ring := ring0, params := p, evs := [] }
  | .ok (fd, p') =>
    let o := io_uring_queue_mmap env fd p'
    if o.ret = 0 then
      { ret := 0, ring := { o.ring with features := p'.features }, params := p', evs := o.evs }
    else
      { ret := o.ret, ring := o.ring, params := p', evs := o.evs ++ [Ev.closeCall fd] }

/-- `int io_uring_queue_init(unsigned entries, struct io_uring *ring,
unsigned flags)` (setup.c lines 161-169): zero-initialised params carrying
only the caller's flags. -/
def io_uring_queue_init (env : Env) (entries : Nat) (ring0 : io_uring)
    (flags : Nat) : InitOut :=
  io_uring_queue_init_params env entries ring0 { zeroParams with flags := flags }

/-- `void io_uring_queue_exit(struct io_uring *ring)` (setup.c lines
171-179): unmap the sqes array sized by the currently reported
`*sq->kring_entries`, then `io_uring_unmap_rings`, then close the ring
descriptor. -/
def io_uring_queue_exit (env : Env) (ring : io_uring) : List Ev :=
  Ev.munmapCall ring.sq.sqes (env.mem ring.sq.kring_entries * sizeof_io_uring_sqe) ::
    (io_uring_unmap_rings ring.sq ring.cq ++ [Ev.closeCall ring.ring_fd])

/-! ### Capability prober (setup.c lines 181-214) -/

/-- `struct io_uring_probe *io_uring_get_probe_ring(struct io_uring *ring)`
(setup.c lines 181-199): allocate the probe buffer (`NULL` malloc fails),
query the supported-operation bitmap, free and return `NULL` when the query
fails.  The returned value is the probe buffer's address. -/
def io_uring_get_probe_ring (env : Env) : Option Nat :=
  if env.probe_malloc = 0 then none
  else if 0 ≤ env.register_probe then some env.probe_malloc
  else none

/-- `struct io_uring_probe *io_uring_get_probe(void)` (setup.c lines
201-214): create a depth-2 scratch ring, probe it, tear the scratch ring
down, and return the probe (or `NULL`).  `ring0` is the uninitialised stack
ring. -/
def io_uring_get_probe (env : Env) (ring0 : io_uring) : Option Nat × List Ev :=
  let o := io_uring_queue_init env 2 ring0 0
  if o.ret < 0 then (none, o.evs)
  else
    let probe := io_uring_get_probe_ring env
    (probe, o.evs ++ io_uring_queue_exit env o.ring)

/-! ### Memory-lock estimator (setup.c lines 281-339) -/

/-- The tail of `io_uring_mlock_size_params`: read the page size (4096 when
`sysconf` fails) and return the `rings_size` byte total as a `ssize_t`. -/
def mlockFinish (env : Env) (entries cq_entries : Nat) : Int :=
  let page_size : Nat := if env.page_size < 0 then 4096 else env.page_size.toNat
  Int.ofNat (rings_size entries cq_entries page_size)

/-- `ssize_t io_uring_mlock_size_params(unsigned entries, struct
io_uring_params *p)` (setup.c lines 281-332).  `ring0` is the uninitialised
stack ring handed to the throwaway creation; the throwaway ring's
`io_uring_queue_exit` affects only external state, not the returned value. -/
def io_uring_mlock_size_params (env : Env) (entries : Nat)
    (p : io_uring_params) (ring0 : io_uring) : Int :=
  let o := io_uring_queue_init_params env entries ring0 zeroParams
  if o.ret < 0 then o.ret
  else if o.params.features &&& IORING_FEAT_NATIVE_WORKERS ≠ 0 then 0
  else if entries = 0 then -(EINVAL : Int)
  else if entries > KERN_MAX_ENTRIES ∧ p.flags &&& IORING_SETUP_CLAMP = 0 then
    -(EINVAL : Int)
  else
    let entries := if entries > KERN_MAX_ENTRIES then KERN_MAX_ENTRIES else entries
    let entries := roundup_pow2 entries
    if p.flags &&& IORING_SETUP_CQSIZE ≠ 0 then
      if p.cq_entries = 0 then -(EINVAL : Int)
      else if p.cq_entries > KERN_MAX_CQ_ENTRIES ∧ p.flags &&& IORING_SETUP_CLAMP = 0 then
        -(EINVAL : Int)
      else
        let cq_entries :=
          if p.cq_entries > KERN_MAX_CQ_ENTRIES then KERN_MAX_CQ_ENTRIES else p.cq_entries
        let cq_entries := roundup_pow2 cq_entries
        if cq_entries < entries then -(EINVAL : Int)
        else mlockFinish env entries cq_entries
    else mlockFinish env entries (2 * entries)

/-- `ssize_t io_uring_mlock_size(unsigned entries, unsigned flags)`
(setup.c lines 334-339). -/
def io_uring_mlock_size (env : Env) (entries flags : Nat) (ring0 : io_uring) : Int :=
  io_uring_mlock_size_params env entries { zeroParams with flags := flags } ring0

/-- The submission ring-metadata region length computed in `io_uring_mmap`
step 1. -/
def sqRingLen (p : io_uring_params) : Nat :=
  p.sq_off.array + p.sq_entries * sizeof_unsigned

/-- The completion ring-metadata region length computed in `io_uring_mmap`
step 1. -/
def cqRingLen (p : io_uring_params) : Nat :=
  p.cq_off.cqes + p.cq_entries * sizeof_io_uring_cqe

/-- The entry-record (sqes) array length mapped in `io_uring_mmap` step 4. -/
def sqesLen (p : io_uring_params) : Nat :=
  p.sq_entries * sizeof_io_uring_sqe

/-! ### Concrete oracle environments and rings used by witnesses -/

/-- An environment whose external calls all succeed: `mmap` returns the
(nonzero, offset-distinct) address `offset + 4096`, setup grants the request
on descriptor 3, the shared ring-entries field reads back 4, the page size
is 4096. -/
def envW : Env where
  mmap := fun _ o => .ok (o + 4096)
  setup := fun n p => .ok (3, { p with sq_entries := n, cq_entries := 2 * n })
  mem := fun _ => 4
  page_size := 4096
  probe_malloc := 6000
  register_probe := 0

/-- An environment whose `mmap` always fails with `ENOMEM` and whose other
calls also fail. -/
def envF : Env where
  mmap := fun _ _ => .error (ENOMEM : Int)
  setup := fun n p => .ok (3, { p with sq_entries := n, cq_entries := 2 * n })
  mem := fun _ => 0
  page_size := -1
  probe_malloc := 0
  register_probe := -(EINVAL : Int)

/-- An environment where the two ring-metadata mappings succeed (distinct
nonzero addresses) and the entry-record array mapping fails with `ENOMEM`. -/
def envSqesFail : Env where
  mmap := fun _ o =>
    if o = IORING_OFF_SQ_RING then .ok 4096
    else if o = IORING_OFF_CQ_RING then .ok 8192
    else .error (ENOMEM : Int)
  setup := fun n p => .ok (3, { p with sq_entries := n, cq_entries := 2 * n })
  mem := fun _ => 4
  page_size := 4096
  probe_malloc := 6000
  register_probe := 0

/-- A fully created ring with distinct submission/completion base addresses. -/
def ringW : io_uring where
  sq := { khead := 4096, ktail := 4100, kring_mask := 4104, kring_entries := 4108,
          kflags := 4112, kdropped := 4116, array := 4120, sqes := 12288,
          ring_sz := 100, ring_ptr := 4096 }
  cq := { khead := 8192, ktail := 8196, kring_mask := 8200, kring_entries := 8204,
          koverflow := 8208, cqes := 8212, kflags := 0, ring_sz := 200, ring_ptr := 8192 }
  flags := 0
  ring_fd := 3
  features := 0

/-- Params requesting 4 entries with no features and distinct offsets. -/
def paramsW : io_uring_params where
  sq_entries := 4
  cq_entries := 8
  flags := 0
  features := 0
  sq_off := { head := 0, tail := 4, ring_mask := 8, ring_entries := 12,
              flags := 16, dropped := 20, array := 24 }
  cq_off := { head := 0, tail := 4, ring_mask := 8, ring_entries := 12,
              overflow := 16, cqes := 20, flags := 0 }

/-- `paramsW` with the single-combined-mapping feature reported. -/
def paramsWS : io_uring_params := { paramsW with features := IORING_FEAT_SINGLE_MMAP }

/-- An all-succeeding environment whose kernel reports the
native-worker-accounting feature. -/
def envNW : Env :=
  { envW with
    setup := fun n p =>
      .ok (3, { p with
        sq_entries := n
        cq_entries := 2 * n
        features := IORING_FEAT_NATIVE_WORKERS }) }

/-- Zeroed options with only the clamping bit set. -/
def paramsClamp : io_uring_params := { zeroParams with flags := IORING_SETUP_CLAMP }

/-- Options with the explicit completion-size bit and override 5, smaller
than the rounded submission depth 8 but rounding up to 8. -/
def paramsCq5 : io_uring_params :=
  { zeroParams with flags := IORING_SETUP_CQSIZE, cq_entries := 5 }

/-- Options with the explicit completion-size bit and override 4. -/
def paramsCq4 : io_uring_params :=
  { zeroParams with flags := IORING_SETUP_CQSIZE, cq_entries := 4 }

/-! ### Bitwise-and with a contiguous high mask

Helper lemmas that characterise `x &&& ((2^j - 1) <<< k)`, the shape of every
mask tested in `__fls` (`0xffff0000`, `0xff000000`, `0xf0000000`, `0xc0000000`,
`0x80000000`) and of the 64-byte rounding mask `~63UL` in `rings_size`. -/

theorem shiftRight_and (x y k : Nat) :
    (x &&& y) >>> k = (x >>> k) &&& (y >>> k) := by
  apply Nat.eq_of_testBit_eq
  intro i
  simp [Nat.testBit_shiftRight, Nat.testBit_and]

theorem shiftLeft_shiftRight_self (a k : Nat) : (a <<< k) >>> k = a := by
  rw [Nat.shiftLeft_eq, Nat.shiftRight_eq_div_pow]
  exact Nat.mul_div_cancel a (Nat.pos_pow_of_pos k (by norm_num))

theorem and_shl_mask (x j k : Nat) :
    x &&& ((2 ^ j - 1) <<< k) = 2 ^ k * (x / 2 ^ k % 2 ^ j) := by
  have hk : (0 : Nat) < 2 ^ k := Nat.pos_pow_of_pos k (by norm_num)
  set y := x &&& ((2 ^ j - 1) <<< k) with hy
  have hmod : y % 2 ^ k = 0 := by
    rw [← Nat.and_pow_two_sub_one_eq_mod, hy, Nat.and_assoc]
    have hz : ((2 ^ j - 1) <<< k) &&& (2 ^ k - 1) = 0 := by
      rw [Nat.and_pow_two_sub_one_eq_mod, Nat.shiftLeft_eq, Nat.mul_mod_left]
    rw [hz, Nat.and_zero]
  have hdiv : y / 2 ^ k = x / 2 ^ k % 2 ^ j := by
    have h1 : y >>> k = (x >>> k) &&& ((2 ^ j - 1) <<< k) >>> k := shiftRight_and _ _ _
    rw [shiftLeft_shiftRight_self] at h1
    rw [← Nat.shiftRight_eq_div_pow, h1, Nat.and_pow_two_sub_one_eq_mod,
      Nat.shiftRight_eq_div_pow]
  calc y = 2 ^ k * (y / 2 ^ k) + y % 2 ^ k := (Nat.div_add_mod y (2 ^ k)).symm
    _ = 2 ^ k * (x / 2 ^ k % 2 ^ j) := by rw [hdiv, hmod, Nat.add_zero]

theorem and_high_mask_eq_zero (x j k : Nat) (hx : x < 2 ^ (k + j)) :
    (x &&& ((2 ^ j - 1) <<< k) = 0) ↔ x < 2 ^ k := by
  have hk : (0 : Nat) < 2 ^ k := Nat.pos_pow_of_pos k (by norm_num)
  have h1 : x / 2 ^ k < 2 ^ j := by
    apply Nat.div_lt_of_lt_mul
    rwa [← Nat.pow_add]
  rw [and_shl_mask, Nat.mod_eq_of_lt h1]
  constructor
  · intro h
    have h2 : x / 2 ^ k = 0 := by
      rcases Nat.mul_eq_zero.mp h with h' | h'
      · exact absurd h' (Nat.pos_iff_ne_zero.mp hk)
      · exact h'
    exact (Nat.div_eq_zero_iff hk).mp h2
  · intro h
    rw [Nat.div_eq_of_lt h, Nat.mul_zero]

theorem and_high_mask_round (x j k : Nat) (hx : x < 2 ^ (k + j)) :
    x &&& ((2 ^ j - 1) <<< k) = x / 2 ^ k * 2 ^ k := by
  have h1 : x / 2 ^ k < 2 ^ j := by
    apply Nat.div_lt_of_lt_mul
    rwa [← Nat.pow_add]
  rw [and_shl_mask, Nat.mod_eq_of_lt h1, Nat.mul_comm]

/-! ### Properties of `__fls`, `roundup_pow2`, `npages`, `rings_size` -/

/-- The mask of each unrolled step of the C source, written with the literal
hex masks of lines 227-246, agrees with the `flsStep` presentation. -/
theorem __fls_unrolled (x : Nat) :
    __fls x =
      if x = 0 then 0 else
        let p := (x, 32)
        let p := if p.1 &&& 0xffff0000 = 0 then ((p.1 <<< 16) % 2 ^ 32, p.2 - 16) else p
        let p := if p.1 &&& 0xff000000 = 0 then ((p.1 <<< 8) % 2 ^ 32, p.2 - 8) else p
        let p := if p.1 &&& 0xf0000000 = 0 then ((p.1 <<< 4) % 2 ^ 32, p.2 - 4) else p
        let p := if p.1 &&& 0xc0000000 = 0 then ((p.1 <<< 2) % 2 ^ 32, p.2 - 2) else p
        let p := if p.1 &&& 0x80000000 = 0 then ((p.1 <<< 1) % 2 ^ 32, p.2 - 1) else p
        p.2 := by
  rfl

theorem flsAux_spec (L : List Nat) (hT : Tele L) :
    ∀ x r : Nat, L.sum ≤ 31 → 2 ^ (31 - L.sum) ≤ x → x < 2 ^ 32 →
      ∃ s, s ≤ L.sum ∧ flsAux L (x, r) = (x * 2 ^ s, r - s) ∧
        2 ^ 31 ≤ x * 2 ^ s ∧ x * 2 ^ s < 2 ^ 32 := by
  induction hT with
  | nil =>
    intro x r _ hlo hhi
    refine ⟨0, Nat.le_refl 0, ?_, ?_, ?_⟩
    · simp [flsAux]
    · simpa using hlo
    · simpa using hhi
  | cons k t ht hk ih =>
    intro x r hs hlo hhi
    have hsum : (k :: t).sum = k + t.sum := List.sum_cons
    have hts : t.sum ≤ 15 := by omega
    have hk16 : k ≤ 16 := by omega
    have hmask := and_high_mask_eq_zero x k (32 - k) (by rwa [Nat.sub_add_cancel (by omega)])
    show ∃ s, _
    rw [show flsAux (k :: t) (x, r) = flsAux t (flsStep k (x, r)) from rfl]
    by_cases hc : x &&& ((2 ^ k - 1) <<< (32 - k)) = 0
    · -- the top k bits are clear: shift left by k, decrement r by k
      have hxlt : x < 2 ^ (32 - k) := hmask.mp hc
      have hshift : (x <<< k) % 2 ^ 32 = x * 2 ^ k := by
        rw [Nat.shiftLeft_eq, Nat.mod_eq_of_lt]
        calc x * 2 ^ k < 2 ^ (32 - k) * 2 ^ k := by
              exact Nat.mul_lt_mul_of_lt_of_le hxlt (Nat.le_refl _) (Nat.pos_pow_of_pos _ (by norm_num))
          _ = 2 ^ 32 := by rw [← Nat.pow_add, Nat.sub_add_cancel (by omega)]
      have hstep : flsStep k (x, r) = (x * 2 ^ k, r - k) := by
        simp only [flsStep, hc, if_pos]
        rw [hshift]
      rw [hstep]
      have hlo' : 2 ^ (31 - t.sum) ≤ x * 2 ^ k := by
        calc 2 ^ (31 - t.sum) = 2 ^ (31 - (k + t.sum)) * 2 ^ k := by
              rw [← Nat.pow_add]
              congr 1
              omega
          _ ≤ x * 2 ^ k := by
              apply Nat.mul_le_mul_right
              rw [hsum] at hlo
              exact hlo
      have hhi' : x * 2 ^ k < 2 ^ 32 := by
        calc x * 2 ^ k < 2 ^ (32 - k) * 2 ^ k := by
              exact Nat.mul_lt_mul_of_lt_of_le hxlt (Nat.le_refl _) (Nat.pos_pow_of_pos _ (by norm_num))
          _ = 2 ^ 32 := by rw [← Nat.pow_add, Nat.sub_add_cancel (by omega)]
      obtain ⟨s', hs'le, heq, hb1, hb2⟩ := ih (x * 2 ^ k) (r - k) (by omega) hlo' hhi'
      refine ⟨k + s', by omega, ?_, ?_, ?_⟩
      · rw [heq, Nat.mul_assoc, ← Nat.pow_add, Nat.sub_sub]
      · rwa [Nat.mul_assoc, ← Nat.pow_add] at hb1
      · rwa [Nat.mul_assoc, ← Nat.pow_add] at hb2
    · -- a bit among the top k is set: x is already at least 2^(32-k)
      have hxge : 2 ^ (32 - k) ≤ x := by
        rcases Nat.lt_or_ge x (2 ^ (32 - k)) with h | h
        · exact absurd (hmask.mpr h) hc
        · exact h
      have hstep : flsStep k (x, r) = (x, r) := by
        simp only [flsStep, hc, if_neg, ite_false]
      rw [hstep]
      have hlo' : 2 ^ (31 - t.sum) ≤ x := by
        calc 2 ^ (31 - t.sum) = 2 ^ (32 - k) := by
              congr 1
              omega
          _ ≤ x := hxge
      obtain ⟨s', hs'le, heq, hb1, hb2⟩ := ih x r (by omega) hlo' hhi
      exact ⟨s', by omega, heq, hb1, hb2⟩

theorem fls_spec (x : Nat) (h0 : 0 < x) (hhi : x < 2 ^ 32) :
    ∃ s, s ≤ 31 ∧ __fls x = 32 - s ∧ 2 ^ (31 - s) ≤ x ∧ x < 2 ^ (32 - s) := by
  have hT : Tele [16, 8, 4, 2, 1] := by
    refine Tele.cons _ _ (Tele.cons _ _ (Tele.cons _ _ (Tele.cons _ _ (Tele.cons _ _ Tele.nil ?_) ?_) ?_) ?_) ?_ <;> rfl
  obtain ⟨s, hsle, heq, hb1, hb2⟩ :=
    flsAux_spec [16, 8, 4, 2, 1] hT x 32 (by norm_num) (by simpa using h0) hhi
  have hsum : ([16, 8, 4, 2, 1] : List Nat).sum = 31 := by rfl
  rw [hsum] at hsle
  refine ⟨s, hsle, ?_, ?_, ?_⟩
  · rw [__fls, if_neg (by omega), heq]
  · -- 2^(31-s) * 2^s ≤ x * 2^s gives the lower bound
    have h1 : 2 ^ (31 - s) * 2 ^ s ≤ x * 2 ^ s := by
      rw [← Nat.pow_add, Nat.sub_add_cancel hsle]
      exact hb1
    exact Nat.le_of_mul_le_mul_right h1 (Nat.pos_pow_of_pos _ (by norm_num))
  · have h1 : x * 2 ^ s < 2 ^ (32 - s) * 2 ^ s := by
      rw [← Nat.pow_add, Nat.sub_add_cancel (by omega)]
      exact hb2
    exact Nat.lt_of_mul_lt_mul_right h1

theorem fls_zero : __fls 0 = 0 := rfl

theorem fls_lt_pow (x : Nat) (hhi : x < 2 ^ 32) : x < 2 ^ __fls x := by
  rcases Nat.eq_zero_or_pos x with h | h
  · subst h
    simp [fls_zero]
  · obtain ⟨s, _, heq, _, hb⟩ := fls_spec x h hhi
    rw [heq]
    exact hb

theorem fls_le_32 (x : Nat) (hhi : x < 2 ^ 32) : __fls x ≤ 32 := by
  rcases Nat.eq_zero_or_pos x with h | h
  · subst h
    simp [fls_zero]
  · obtain ⟨s, _, heq, _, _⟩ := fls_spec x h hhi
    omega

theorem fls_le_of_lt_pow (x m : Nat) (hx : x < 2 ^ m) (hhi : x < 2 ^ 32) :
    __fls x ≤ m := by
  rcases Nat.eq_zero_or_pos x with h | h
  · subst h
    simp [fls_zero]
  · obtain ⟨s, hsle, heq, hb1, _⟩ := fls_spec x h hhi
    rw [heq]
    by_contra hcon
    have h1 : m ≤ 31 - s := by omega
    have h2 : 2 ^ m ≤ 2 ^ (31 - s) := Nat.pow_le_pow_right (by norm_num) h1
    omega

theorem fls_two_pow_sub_one (j : Nat) (hj : j ≤ 32) : __fls (2 ^ j - 1) = j := by
  interval_cases j <;> decide

/-- The 64-byte rounding mask of `rings_size` is the literal `~63UL` of the
C source. -/
theorem rings_size_mask : ((2 ^ 58 - 1) <<< 6 : Nat) = 0xFFFFFFFFFFFFFFC0 := by
  decide

/-! #### C7: `roundup_pow2` returns a power of two, is ≥ its argument, and is
idempotent -/

theorem roundup_pow2_of_small (n : Nat) (h1 : 1 ≤ n) (h2 : n < 2 ^ 32) :
    roundup_pow2 n = 2 ^ __fls (n - 1) := by
  have harg : (n % 2 ^ 32 + (2 ^ 32 - 1)) % 2 ^ 32 = n - 1 := by
    rw [Nat.mod_eq_of_lt h2]
    omega
  rw [roundup_pow2, harg, Nat.shiftLeft_eq, Nat.one_mul]

/-- C7: for every 32-bit `n ≥ 1`, `roundup_pow2 n` is a power of two that is
at least `n`, and `roundup_pow2` is idempotent on its outputs. -/
theorem roundup_pow2_spec (n : Nat) (h1 : 1 ≤ n) (h2 : n < 2 ^ 32) :
    (∃ k, roundup_pow2 n = 2 ^ k) ∧ n ≤ roundup_pow2 n ∧
      roundup_pow2 (roundup_pow2 n) = roundup_pow2 n := by
  have hn1 : n - 1 < 2 ^ 32 := by omega
  have hmain : roundup_pow2 n = 2 ^ __fls (n - 1) := roundup_pow2_of_small n h1 h2
  have hle32 : __fls (n - 1) ≤ 32 := fls_le_32 _ hn1
  refine ⟨⟨__fls (n - 1), hmain⟩, ?_, ?_⟩
  · have := fls_lt_pow (n - 1) hn1
    omega
  · set j := __fls (n - 1) with hj
    rcases Nat.lt_or_ge j 32 with hj31 | hj32
    · have hlt : 2 ^ j < 2 ^ 32 := Nat.pow_lt_pow_right (by norm_num) hj31
      rw [hmain, roundup_pow2_of_small (2 ^ j) (Nat.pos_pow_of_pos _ (by norm_num)) hlt,
        fls_two_pow_sub_one j (by omega)]
    · have hj' : j = 32 := by omega
      rw [hmain, hj', roundup_pow2]
      have h232 : (2 ^ 32 : Nat) % 2 ^ 32 = 0 := Nat.mod_self _
      rw [h232, Nat.zero_add, Nat.mod_eq_of_lt (by norm_num)]
      have : __fls (2 ^ 32 - 1) = 32 := fls_two_pow_sub_one 32 (by norm_num)
      rw [this, Nat.shiftLeft_eq, Nat.one_mul]

/-- C7 witness: the three `roundup_pow2` properties at the concrete input 5
(`roundup_pow2 5 = 8`). -/
theorem roundup_pow2_spec_witness :
    (1 ≤ 5 ∧ 5 < 2 ^ 32) ∧
      ((∃ k, roundup_pow2 5 = 2 ^ k) ∧ 5 ≤ roundup_pow2 5 ∧
        roundup_pow2 (roundup_pow2 5) = roundup_pow2 5) :=
  ⟨⟨by decide, by decide⟩, roundup_pow2_spec 5 (by decide) (by decide)⟩

/-! #### C3: `rings_size` equals the spec formula -/

theorem pow_fls_eq_pow_clog (m : Nat) (h1 : 1 ≤ m) (h2 : m - 1 < 2 ^ 32) :
    2 ^ __fls (m - 1) = 2 ^ Nat.clog 2 m := by
  congr 1
  rcases Nat.eq_or_lt_of_le h1 with h | h
  · rw [← h]
    simp [fls_zero, Nat.clog_one_right]
  · -- m ≥ 2, so m - 1 ≥ 1 and fls_spec applies
    obtain ⟨s, hsle, heq, hb1, hb2⟩ := fls_spec (m - 1) (by omega) h2
    rw [heq]
    have hup : Nat.clog 2 m ≤ 32 - s := by
      rw [← Nat.le_pow_iff_clog_le (by norm_num)]
      omega
    have hdown : 32 - s ≤ Nat.clog 2 m := by
      have h31 : (31 : Nat) - s = 32 - s - 1 := by omega
      have hlt : 2 ^ (32 - s - 1) < m := by
        rw [← h31]
        omega
      have := (Nat.pow_lt_iff_lt_clog (by norm_num : (1 : Nat) < 2)).mp hlt
      omega
    omega

theorem npages_pages (size ps : Nat) (h1 : 1 ≤ size) (h2 : size < 2 ^ 32)
    (hp : 1 ≤ ps) :
    (1 : Nat) <<< npages size ps = 2 ^ Nat.clog 2 ((size + ps - 1) / ps) := by
  have hwrap : (size + (2 ^ 64 - 1)) % 2 ^ 64 = size - 1 := by
    have : size + (2 ^ 64 - 1) = (size - 1) + 2 ^ 64 := by omega
    rw [this, Nat.add_mod_right, Nat.mod_eq_of_lt (by omega)]
  have hsmall : (size - 1) / ps < 2 ^ 32 :=
    Nat.lt_of_le_of_lt (Nat.div_le_self _ _) (by omega)
  have hceil : (size + ps - 1) / ps = (size - 1) / ps + 1 := by
    have h' : size + ps - 1 = (size - 1) + ps := by omega
    rw [h', Nat.add_div_right _ hp]
  rw [npages, hwrap, Nat.mod_eq_of_lt hsmall, Nat.shiftLeft_eq, Nat.one_mul, hceil]
  have := pow_fls_eq_pow_clog ((size - 1) / ps + 1) (Nat.le_add_left 1 _)
    (by simpa using hsmall)
  simpa using this

/-- C3: for every validated submission and completion depth and positive
32-bit page size, `rings_size` returns exactly the spec's byte total. -/
theorem rings_size_eq_spec (entries cq_entries page_size : Nat)
    (he1 : 1 ≤ entries) (he2 : entries ≤ KERN_MAX_ENTRIES)
    (hc1 : 1 ≤ cq_entries) (hc2 : cq_entries ≤ KERN_MAX_CQ_ENTRIES)
    (hp1 : 1 ≤ page_size) (hp2 : page_size < 2 ^ 32) :
    rings_size entries cq_entries page_size =
      rings_size_spec entries cq_entries page_size := by
  rw [rings_size, rings_size_spec]
  simp only [KRING_SIZE, sizeof_io_uring_cqe, sizeof_io_uring_sqe]
  rw [KERN_MAX_ENTRIES] at he2
  rw [KERN_MAX_CQ_ENTRIES, KERN_MAX_ENTRIES] at hc2
  have hcqraw : 320 + cq_entries * 16 + 63 < 2 ^ 64 := by omega
  rw [and_high_mask_round (320 + cq_entries * 16 + 63) 58 6 (by norm_num; omega)]
  have hr64 : (320 + cq_entries * 16 + 63) / 2 ^ 6 * 2 ^ 6 =
      (320 + cq_entries * 16 + 63) / 64 * 64 := by norm_num
  rw [hr64]
  set cqB := (320 + cq_entries * 16 + 63) / 64 * 64 with hcqB
  have hcqB1 : 1 ≤ cqB := by
    rw [hcqB]
    have h1 : (64 : Nat) ≤ 320 + cq_entries * 16 + 63 := by omega
    have h2 : 1 ≤ (320 + cq_entries * 16 + 63) / 64 := (Nat.one_le_div_iff (by norm_num)).mpr h1
    omega
  have hcqB2 : cqB < 2 ^ 32 := by
    rw [hcqB]
    have h1 : (320 + cq_entries * 16 + 63) / 64 * 64 ≤ 320 + cq_entries * 16 + 63 :=
      Nat.div_mul_le_self _ _
    omega
  have hsq1 : 1 ≤ 64 * entries := by omega
  have hsq2 : 64 * entries < 2 ^ 32 := by omega
  rw [npages_pages cqB page_size hcqB1 hcqB2 hp1,
    npages_pages (64 * entries) page_size hsq1 hsq2 hp1]
  have hmul : 64 * entries = entries * 64 := Nat.mul_comm _ _
  rw [hmul]
  -- the 64-bit product does not wrap: both page counts are at most 2^26
  have hdivle : ∀ a : Nat, 1 ≤ a → (a + page_size - 1) / page_size ≤ a := by
    intro a ha
    have h1 : a ≤ a * page_size := Nat.le_mul_of_pos_right a (by omega)
    have hle : a + page_size - 1 < page_size * (a + 1) := by
      have h2 : page_size * (a + 1) = a * page_size + page_size := by ring
      omega
    have := Nat.div_lt_of_lt_mul hle
    omega
  have hb1 : Nat.clog 2 ((cqB + page_size - 1) / page_size) ≤ 26 := by
    rw [← Nat.le_pow_iff_clog_le (by norm_num)]
    have h4 := hdivle cqB hcqB1
    have h5 : cqB ≤ 2 ^ 21 := by rw [hcqB]; omega
    omega
  have hb2 : Nat.clog 2 ((entries * 64 + page_size - 1) / page_size) ≤ 26 := by
    rw [← Nat.le_pow_iff_clog_le (by norm_num)]
    have h4 := hdivle (entries * 64) (by omega)
    omega
  have hpow1 : (2 : Nat) ^ Nat.clog 2 ((cqB + page_size - 1) / page_size) ≤ 2 ^ 26 :=
    Nat.pow_le_pow_right (by norm_num) hb1
  have hpow2 : (2 : Nat) ^ Nat.clog 2 ((entries * 64 + page_size - 1) / page_size) ≤ 2 ^ 26 :=
    Nat.pow_le_pow_right (by norm_num) hb2
  have hnowrap : (2 ^ Nat.clog 2 ((cqB + page_size - 1) / page_size) +
      2 ^ Nat.clog 2 ((entries * 64 + page_size - 1) / page_size)) * page_size < 2 ^ 64 := by
    calc (2 ^ Nat.clog 2 ((cqB + page_size - 1) / page_size) +
          2 ^ Nat.clog 2 ((entries * 64 + page_size - 1) / page_size)) * page_size
        ≤ (2 ^ 26 + 2 ^ 26) * 2 ^ 32 := Nat.mul_le_mul (by omega) (by omega)
      _ < 2 ^ 64 := by norm_num
  rw [Nat.mod_eq_of_lt hnowrap]

/-- C3 witness: the byte-total formula at submission depth 8, completion
depth 16, page size 4096. -/
theorem rings_size_eq_spec_witness :
    rings_size 8 16 4096 = rings_size_spec 8 16 4096 :=
  rings_size_eq_spec 8 16 4096 (by decide) (by decide) (by decide) (by decide)
    (by decide) (by decide)

/-! ### Ring Mapper claims (C1, C4) -/

/-- C1: in `io_uring_mmap`, any mapping step after the first, on failure,
unmaps every mapping already established in this call — the trace leaves no
live region — and the call returns the negated OS error code of the failing
mapping step.  The oracle hypotheses state what `mmap` guarantees: returned
addresses are non-null and the two ring-metadata regions are distinct. -/
theorem io_uring_mmap_unwinds_on_failure (env : Env) (p : io_uring_params)
    (sq0 : io_uring_sq) (cq0 : io_uring_cq)
    (haddr : ∀ l o a, env.mmap l o = .ok a → a ≠ 0)
    (hdist : ∀ l l' a b, env.mmap l IORING_OFF_SQ_RING = .ok a →
      env.mmap l' IORING_OFF_CQ_RING = .ok b → a ≠ b)
    (hfail : (io_uring_mmap env p sq0 cq0).ret ≠ 0) :
    liveAddrs (io_uring_mmap env p sq0 cq0).evs = [] ∧
      ∃ l o e, env.mmap l o = .error e ∧ (io_uring_mmap env p sq0 cq0).ret = -e := by
  revert hfail
  unfold io_uring_mmap io_uring_mmapSqes
  dsimp only
  split
  case _ e h1 =>
    -- first mapping step failed: nothing was mapped
    intro _
    exact ⟨rfl, _, _, e, h1, rfl⟩
  case _ a h1 =>
    split
    case isTrue hf =>
      -- single combined mapping: only the sqes step can fail afterwards
      split
      case _ e h3 =>
        intro _
        refine ⟨?_, _, _, e, h3, rfl⟩
        simp [liveAddrs, liveAfter, io_uring_unmap_rings, List.erase_cons_head]
      case _ s h3 =>
        intro hfail
        exact absurd rfl hfail
    case isFalse hf =>
      split
      case _ e h2 =>
        -- completion-region mapping failed: unwind the submission mapping
        intro _
        refine ⟨?_, _, _, e, h2, rfl⟩
        simp [liveAddrs, liveAfter, io_uring_unmap_rings, List.erase_cons_head]
      case _ b h2 =>
        split
        case _ e h3 =>
          -- sqes mapping failed: unwind both ring-metadata mappings
          intro _
          refine ⟨?_, _, _, e, h3, rfl⟩
          have hb0 : b ≠ 0 := haddr _ _ _ h2
          have hab : a ≠ b := hdist _ _ _ _ h1 h2
          simp [liveAddrs, liveAfter, io_uring_unmap_rings, hb0, Ne.symm hab,
            List.erase_cons_head]
        case _ s h3 =>
          intro hfail
          exact absurd rfl hfail

/-- C1 witness: with the entry-record mapping failing after two successful
ring mappings, the call fails and the trace leaves no live mapping. -/
theorem io_uring_mmap_unwinds_on_failure_witness :
    liveAddrs (io_uring_mmap envSqesFail paramsW zeroSq zeroCq).evs = [] ∧
      ∃ l o e, envSqesFail.mmap l o = .error e ∧
        (io_uring_mmap envSqesFail paramsW zeroSq zeroCq).ret = -e :=
  io_uring_mmap_unwinds_on_failure envSqesFail paramsW zeroSq zeroCq
    (by
      intro l o a h
      by_cases h1 : o = 0 <;> by_cases h2 : o = 0x8000000 <;>
        simp [envSqesFail, IORING_OFF_SQ_RING, IORING_OFF_CQ_RING, h1, h2] at h <;> omega)
    (by
      intro l l' a b ha hb
      simp [envSqesFail, IORING_OFF_SQ_RING, IORING_OFF_CQ_RING] at ha hb
      omega)
    (by decide)

/-- C4: when the resolved params report the single-combined-mapping feature
and mapping succeeds, exactly one ring-metadata mapping is established (the
only other mapping in the trace is the entry-record array), its length is
the maximum of the submission- and completion-region lengths, both side
descriptors record that same length, and both report the same base
address. -/
theorem io_uring_mmap_single_mmap (env : Env) (p : io_uring_params)
    (sq0 : io_uring_sq) (cq0 : io_uring_cq)
    (herr : ∀ l o e, env.mmap l o = .error e → 0 < e)
    (hf : p.features &&& IORING_FEAT_SINGLE_MMAP ≠ 0)
    (hret : (io_uring_mmap env p sq0 cq0).ret = 0) :
    (io_uring_mmap env p sq0 cq0).sq.ring_sz = max (sqRingLen p) (cqRingLen p) ∧
    (io_uring_mmap env p sq0 cq0).cq.ring_sz = (io_uring_mmap env p sq0 cq0).sq.ring_sz ∧
    (io_uring_mmap env p sq0 cq0).cq.ring_ptr = (io_uring_mmap env p sq0 cq0).sq.ring_ptr ∧
    ∃ a s, (io_uring_mmap env p sq0 cq0).evs =
      [Ev.mmapCall a (max (sqRingLen p) (cqRingLen p)) IORING_OFF_SQ_RING,
       Ev.mmapCall s (sqesLen p) IORING_OFF_SQES] := by
  revert hret
  unfold io_uring_mmap io_uring_mmapSqes
  dsimp only
  split
  case _ e h1 =>
    intro hret
    simp only at hret
    have := herr _ _ _ h1
    omega
  case _ a h1 =>
    split
    case isTrue hfeat =>
      split
      case _ e h3 =>
        intro hret
        simp only at hret
        have := herr _ _ _ h3
        omega
      case _ s h3 =>
        intro _
        refine ⟨?_, ?_, ?_, a, s, ?_⟩ <;>
          (simp [sqRingLen, cqRingLen, sqesLen]; try (split <;> simp <;> omega))
    case isFalse hfeat =>
      exact absurd hf hfeat

/-- C4 witness: with every mapping succeeding and the single-combined-mapping
feature set, the mapper makes one ring-metadata mapping of the maximal
length and both descriptors share its base address. -/
theorem io_uring_mmap_single_mmap_witness :
    (io_uring_mmap envW paramsWS zeroSq zeroCq).sq.ring_sz =
        max (sqRingLen paramsWS) (cqRingLen paramsWS) ∧
      (io_uring_mmap envW paramsWS zeroSq zeroCq).cq.ring_sz =
        (io_uring_mmap envW paramsWS zeroSq zeroCq).sq.ring_sz ∧
      (io_uring_mmap envW paramsWS zeroSq zeroCq).cq.ring_ptr =
        (io_uring_mmap envW paramsWS zeroSq zeroCq).sq.ring_ptr ∧
      ∃ a s, (io_uring_mmap envW paramsWS zeroSq zeroCq).evs =
        [Ev.mmapCall a (max (sqRingLen paramsWS) (cqRingLen paramsWS)) IORING_OFF_SQ_RING,
         Ev.mmapCall s (sqesLen paramsWS) IORING_OFF_SQES] :=
  io_uring_mmap_single_mmap envW paramsWS zeroSq zeroCq
    (by intro l o e h; simp [envW] at h)
    (by decide) (by decide)

/-! ### Teardown and handle-construction claims (C8, C10) -/

/-- C8 counterexample: teardown does not unmap the completion-side region
before the submission-side region; on a fully created ring with distinct
base addresses the actual trace differs from the claimed
sqes-completion-submission-close order. -/
theorem io_uring_queue_exit_claimed_order_cex :
    io_uring_queue_exit envW ringW ≠
      [Ev.munmapCall ringW.sq.sqes (envW.mem ringW.sq.kring_entries * sizeof_io_uring_sqe),
       Ev.munmapCall ringW.cq.ring_ptr ringW.cq.ring_sz,
       Ev.munmapCall ringW.sq.ring_ptr ringW.sq.ring_sz,
       Ev.closeCall ringW.ring_fd] := by
  decide

/-- C8 (amended): for a fully created ring (non-null completion base),
teardown unmaps in this order: the entry-record array sized by the currently
reported ring-entries field, then the submission-side region, then the
completion-side region only if its base differs from the submission-side
base, and finally closes the ring descriptor. -/
theorem io_uring_queue_exit_trace (env : Env) (ring : io_uring)
    (hcq : ring.cq.ring_ptr ≠ 0) :
    io_uring_queue_exit env ring =
      [Ev.munmapCall ring.sq.sqes (env.mem ring.sq.kring_entries * sizeof_io_uring_sqe),
       Ev.munmapCall ring.sq.ring_ptr ring.sq.ring_sz] ++
      (if ring.cq.ring_ptr ≠ ring.sq.ring_ptr then
        [Ev.munmapCall ring.cq.ring_ptr ring.cq.ring_sz]
      else []) ++
      [Ev.closeCall ring.ring_fd] := by
  simp only [io_uring_queue_exit, io_uring_unmap_rings, hcq, ne_eq, not_false_eq_true,
    true_and]
  split <;> simp

/-- C8 witness: the amended trace order at a concrete fully created ring. -/
theorem io_uring_queue_exit_trace_witness :
    ringW.cq.ring_ptr ≠ 0 ∧
      io_uring_queue_exit envW ringW =
        [Ev.munmapCall ringW.sq.sqes (envW.mem ringW.sq.kring_entries * sizeof_io_uring_sqe),
         Ev.munmapCall ringW.sq.ring_ptr ringW.sq.ring_sz] ++
        (if ringW.cq.ring_ptr ≠ ringW.sq.ring_ptr then
          [Ev.munmapCall ringW.cq.ring_ptr ringW.cq.ring_sz]
        else []) ++
        [Ev.closeCall ringW.ring_fd] :=
  ⟨by decide, io_uring_queue_exit_trace envW ringW (by decide)⟩

/-- C10: `io_uring_queue_mmap` starts from the fully zeroed ring structure,
writes the handle's `flags` and `ring_fd` only when the mapping succeeded,
and on any mapping failure leaves both fields zero. -/
theorem io_uring_queue_mmap_frame (env : Env) (fd : Int) (p : io_uring_params) :
    ((io_uring_queue_mmap env fd p).ret = 0 →
      (io_uring_queue_mmap env fd p).ring.flags = p.flags ∧
      (io_uring_queue_mmap env fd p).ring.ring_fd = fd) ∧
    ((io_uring_queue_mmap env fd p).ret ≠ 0 →
      (io_uring_queue_mmap env fd p).ring.flags = 0 ∧
      (io_uring_queue_mmap env fd p).ring.ring_fd = 0) := by
  unfold io_uring_queue_mmap
  dsimp only
  split
  case isTrue h =>
    constructor
    · intro _
      simp [zeroRing]
    · intro hne
      simp at hne
  case isFalse h =>
    constructor
    · intro h0
      simp at h0
      exact absurd h0 h
    · intro _
      simp [zeroRing, zeroSq, zeroCq]

/-- C10 witness: on an environment whose mapping fails, the returned handle
carries neither flags nor a ring descriptor. -/
theorem io_uring_queue_mmap_frame_witness :
    (io_uring_queue_mmap envF 5 paramsW).ring.flags = 0 ∧
      (io_uring_queue_mmap envF 5 paramsW).ring.ring_fd = 0 :=
  (io_uring_queue_mmap_frame envF 5 paramsW).2 (by decide)

/-! ### Return-sign lemmas: every embedded operation reports failure with a
negative code when the oracle's error numbers are positive -/

theorem io_uring_mmap_ret_nonpos (env : Env) (p : io_uring_params)
    (sq0 : io_uring_sq) (cq0 : io_uring_cq)
    (hmerr : ∀ l o e, env.mmap l o = .error e → 0 < e) :
    (io_uring_mmap env p sq0 cq0).ret ≤ 0 := by
  unfold io_uring_mmap io_uring_mmapSqes
  dsimp only
  split
  case _ e h =>
    have := hmerr _ _ _ h
    simp only
    omega
  case _ a h =>
    split
    · split
      case _ e h3 =>
        have := hmerr _ _ _ h3
        simp only
        omega
      case _ s h3 => simp
    · split
      case _ e h2 =>
        have := hmerr _ _ _ h2
        simp only
        omega
      case _ b h2 =>
        split
        case _ e h3 =>
          have := hmerr _ _ _ h3
          simp only
          omega
        case _ s h3 => simp

theorem io_uring_queue_mmap_ret_nonpos (env : Env) (fd : Int) (p : io_uring_params)
    (hmerr : ∀ l o e, env.mmap l o = .error e → 0 < e) :
    (io_uring_queue_mmap env fd p).ret ≤ 0 := by
  unfold io_uring_queue_mmap
  dsimp only
  split
  · simp
  · simpa using io_uring_mmap_ret_nonpos env p zeroRing.sq zeroRing.cq hmerr

theorem io_uring_queue_init_params_ret_nonpos (env : Env) (entries : Nat)
    (ring0 : io_uring) (p : io_uring_params)
    (hserr : ∀ n q e, env.setup n q = .error e → 0 < e)
    (hmerr : ∀ l o e, env.mmap l o = .error e → 0 < e) :
    (io_uring_queue_init_params env entries ring0 p).ret ≤ 0 := by
  unfold io_uring_queue_init_params
  dsimp only
  split
  case _ e h =>
    have := hserr _ _ _ h
    simp only
    omega
  case _ fd p' h =>
    split
    · simp
    · simpa using io_uring_queue_mmap_ret_nonpos env fd p' hmerr

/-! ### Memory-lock estimator claims (C5, C2, C6) -/

/-- C5: whenever the throwaway channel created by the estimator reports the
native-worker-accounting feature, the estimator returns 0, regardless of the
requested depth and options. -/
theorem io_uring_mlock_size_params_native_workers (env : Env) (entries : Nat)
    (p : io_uring_params) (ring0 : io_uring)
    (hok : (io_uring_queue_init_params env entries ring0 zeroParams).ret = 0)
    (hnw : (io_uring_queue_init_params env entries ring0 zeroParams).params.features &&&
      IORING_FEAT_NATIVE_WORKERS ≠ 0) :
    io_uring_mlock_size_params env entries p ring0 = 0 := by
  unfold io_uring_mlock_size_params
  dsimp only
  rw [if_neg (by simp [hok]), if_pos hnw]

/-- C5 witness: estimator returns 0 under native-worker accounting at
depth 4. -/
theorem io_uring_mlock_size_params_native_workers_witness :
    io_uring_mlock_size_params envNW 4 paramsW zeroRing = 0 :=
  io_uring_mlock_size_params_native_workers envNW 4 paramsW zeroRing
    (by decide) (by decide)

/-- C2: once the estimator's throwaway creation has succeeded and the
channel does not report native-worker accounting: a zero depth fails with
`-EINVAL`; a depth above the kernel maximum fails with `-EINVAL` when the
clamping option is absent; and with the clamping option set (and no explicit
completion-size option) the estimator succeeds, computing the byte total at
the clamped depth `KERN_MAX_ENTRIES` (whose power-of-two rounding is itself)
and the default completion depth twice that. -/
theorem io_uring_mlock_size_params_entries_validation (env : Env) (entries : Nat)
    (p : io_uring_params) (ring0 : io_uring)
    (hok : (io_uring_queue_init_params env entries ring0 zeroParams).ret = 0)
    (hnw : (io_uring_queue_init_params env entries ring0 zeroParams).params.features &&&
      IORING_FEAT_NATIVE_WORKERS = 0) :
    (entries = 0 → io_uring_mlock_size_params env entries p ring0 = -(EINVAL : Int)) ∧
    (entries > KERN_MAX_ENTRIES → p.flags &&& IORING_SETUP_CLAMP = 0 →
      io_uring_mlock_size_params env entries p ring0 = -(EINVAL : Int)) ∧
    (entries > KERN_MAX_ENTRIES → p.flags &&& IORING_SETUP_CLAMP ≠ 0 →
      p.flags &&& IORING_SETUP_CQSIZE = 0 →
      io_uring_mlock_size_params env entries p ring0 =
        Int.ofNat (rings_size KERN_MAX_ENTRIES (2 * KERN_MAX_ENTRIES)
          (if env.page_size < 0 then 4096 else env.page_size.toNat))) := by
  have hr : roundup_pow2 KERN_MAX_ENTRIES = KERN_MAX_ENTRIES := by decide
  unfold io_uring_mlock_size_params
  dsimp only
  rw [if_neg (by simp [hok]), if_neg (by simp [hnw])]
  refine ⟨?_, ?_, ?_⟩
  · intro h0
    rw [if_pos h0]
  · intro hbig hnoclamp
    rw [if_neg (by omega), if_pos ⟨hbig, hnoclamp⟩]
  · intro hbig hclamp hnocq
    rw [if_neg (by omega), if_neg (by tauto), if_pos hbig, hr, if_neg (by simp [hnocq]),
      mlockFinish]

/-- C2 witness: at depth 40000 (above the kernel maximum 32768) with the
clamping option set, the estimator returns the byte total for the clamped
depth; the same call without clamping permission fails with `-EINVAL`. -/
theorem io_uring_mlock_size_params_entries_validation_witness :
    io_uring_mlock_size_params envW 40000 paramsClamp zeroRing =
      Int.ofNat (rings_size KERN_MAX_ENTRIES (2 * KERN_MAX_ENTRIES)
        (if envW.page_size < 0 then 4096 else envW.page_size.toNat)) :=
  (io_uring_mlock_size_params_entries_validation envW 40000 paramsClamp zeroRing
    (by decide) (by decide)).2.2 (by decide) (by decide) (by decide)

/-- C6 counterexample: with submission depth 8 (rounded depth 8) and an
explicit completion override 5 — strictly smaller than 8, its own
power-of-two rounding reaching 8 — the estimator does not fail with
`-EINVAL` (the code rounds the override up before comparing), contradicting
the claim that every override strictly below the rounded submission depth is
rejected. -/
theorem io_uring_mlock_size_params_cqsize_cex :
    io_uring_mlock_size_params envW 8 paramsCq5 zeroRing ≠ -(EINVAL : Int) := by
  decide

/-- C6 (amended): with the explicit completion-size option, a zero override
fails with `-EINVAL`, and an override whose power-of-two rounding (after
clamping) is smaller than the rounded submission depth fails with
`-EINVAL`.  (An override below the rounded submission depth whose own
rounding reaches that depth is accepted.) -/
theorem io_uring_mlock_size_params_cqsize_validation (env : Env) (entries : Nat)
    (p : io_uring_params) (ring0 : io_uring)
    (hok : (io_uring_queue_init_params env entries ring0 zeroParams).ret = 0)
    (hnw : (io_uring_queue_init_params env entries ring0 zeroParams).params.features &&&
      IORING_FEAT_NATIVE_WORKERS = 0)
    (hcqf : p.flags &&& IORING_SETUP_CQSIZE ≠ 0) :
    (p.cq_entries = 0 → io_uring_mlock_size_params env entries p ring0 = -(EINVAL : Int)) ∧
    (roundup_pow2 (if p.cq_entries > KERN_MAX_CQ_ENTRIES then KERN_MAX_CQ_ENTRIES
        else p.cq_entries) <
      roundup_pow2 (if entries > KERN_MAX_ENTRIES then KERN_MAX_ENTRIES else entries) →
      io_uring_mlock_size_params env entries p ring0 = -(EINVAL : Int)) := by
  unfold io_uring_mlock_size_params
  dsimp only
  rw [if_neg (by simp [hok]), if_neg (by simp [hnw])]
  by_cases h0 : entries = 0
  · rw [if_pos h0]
    exact ⟨fun _ => rfl, fun _ => rfl⟩
  rw [if_neg h0]
  by_cases h1 : entries > KERN_MAX_ENTRIES ∧ p.flags &&& IORING_SETUP_CLAMP = 0
  · rw [if_pos h1]
    exact ⟨fun _ => rfl, fun _ => rfl⟩
  rw [if_neg h1, if_pos hcqf]
  by_cases h2 : p.cq_entries = 0
  · rw [if_pos h2]
    exact ⟨fun _ => rfl, fun _ => rfl⟩
  rw [if_neg h2]
  by_cases h3 : p.cq_entries > KERN_MAX_CQ_ENTRIES ∧ p.flags &&& IORING_SETUP_CLAMP = 0
  · rw [if_pos h3]
    exact ⟨fun h => absurd h h2, fun _ => rfl⟩
  rw [if_neg h3]
  refine ⟨fun h => absurd h h2, fun hlt => ?_⟩
  rw [if_pos hlt]

/-- C6 witness: with submission depth 8 and an explicit completion override
4 (rounding to 4, smaller than the rounded submission depth 8), the
estimator fails with `-EINVAL`. -/
theorem io_uring_mlock_size_params_cqsize_validation_witness :
    io_uring_mlock_size_params envW 8 paramsCq4 zeroRing = -(EINVAL : Int) :=
  (io_uring_mlock_size_params_cqsize_validation envW 8 paramsCq4 zeroRing
    (by decide) (by decide) (by decide)).2 (by decide)

/-! ### Capability prober claim (C9) -/

/-- C9: whenever `io_uring_get_probe` succeeds in creating its depth-2
scratch ring, its trace ends with the scratch ring's full teardown
(`io_uring_queue_exit`: unmaps and close), whether or not the probe
allocation or the registration query succeeds; and it returns `NULL`
exactly when scratch creation, probe allocation, or the registration query
fails. -/
theorem io_uring_get_probe_spec (env : Env) (ring0 : io_uring)
    (hserr : ∀ n q e, env.setup n q = .error e → 0 < e)
    (hmerr : ∀ l o e, env.mmap l o = .error e → 0 < e) :
    ((io_uring_queue_init env 2 ring0 0).ret = 0 →
      (io_uring_get_probe env ring0).2 =
        (io_uring_queue_init env 2 ring0 0).evs ++
          io_uring_queue_exit env (io_uring_queue_init env 2 ring0 0).ring) ∧
    ((io_uring_get_probe env ring0).1 = none ↔
      ((io_uring_queue_init env 2 ring0 0).ret ≠ 0 ∨ env.probe_malloc = 0 ∨
        env.register_probe < 0)) := by
  have hnonpos : (io_uring_queue_init env 2 ring0 0).ret ≤ 0 :=
    io_uring_queue_init_params_ret_nonpos env 2 ring0 _ hserr hmerr
  constructor
  · intro hret
    unfold io_uring_get_probe
    dsimp only
    rw [if_neg (by simp [hret])]
  · by_cases hret : (io_uring_queue_init env 2 ring0 0).ret = 0
    · unfold io_uring_get_probe io_uring_get_probe_ring
      dsimp only
      rw [if_neg (by simp [hret])]
      simp only [hret, ne_eq, not_true_eq_false, false_or]
      by_cases hm : env.probe_malloc = 0
      · simp [hm]
      · rw [if_neg hm]
        by_cases hr : 0 ≤ env.register_probe
        · rw [if_pos hr]
          simp [hm]
          omega
        · rw [if_neg hr]
          simp [hm]
          omega
    · unfold io_uring_get_probe
      dsimp only
      rw [if_pos (by omega)]
      simp [hret]

/-- C9 witness: with every external call succeeding, the probe call's trace
is the scratch creation followed by the scratch teardown. -/
theorem io_uring_get_probe_spec_witness :
    (io_uring_queue_init envW 2 zeroRing 0).ret = 0 ∧
      (io_uring_get_probe envW zeroRing).2 =
        (io_uring_queue_init envW 2 zeroRing 0).evs ++
          io_uring_queue_exit envW (io_uring_queue_init envW 2 zeroRing 0).ring :=
  ⟨by decide,
    (io_uring_get_probe_spec envW zeroRing
      (by intro n q e h; simp [envW] at h)
      (by intro l o e h; simp [envW] at h)).1 (by decide)⟩

end LiburingSetup
